import Mathlib

/-!
Verification of the gotail follow/tail engine against its specification.

The definitions below are a shallow embedding of the Go sources:
  * `input.GetLines` (cmd/gotail/input) — the line window extractor;
  * the `linePrinter` consumer goroutine (cmd/gotail/output/output.go);
  * `expandGlobs`, `runFiles` and the dispatch logic of `main`
    (cmd/gotail/gotail.go);
  * the release-gate synchronization between `runFiles` and the
    goroutine started by `NewFollowedFileForPath`, as an interleaving
    transition system.

File-system and OS calls (`os.Open`, `filepath.Glob`, `filepath.Abs`,
`filepath.Clean`, `os.Stat`/`tail.TailFile`) are passed in as environment
parameters; paths handled by `runFiles` are an opaque type with decidable
equality, since the code only compares them and hands them to those calls.
Scanner read errors (`scanner.Err()`) are not modelled: every theorem is
about finite streams that are read to the end without device failure.
-/

namespace GoTail

/-! ## Line window extractor: `input.GetLines` (src/unnamed/part_004)

`GetLines(path, head, startAtOffset, linesWanted)` scans a stream line by
line.  Each branch of the Go function is a left fold over the scanned
lines; the accumulator carries the `lines` slice and the `totalLines`
counter (a Go `int`, modelled as `Int`).
-/

/-- One iteration of the tail loop of `GetLines` (part_004 lines 82-90):
append the scanned line, bump `totalLines`, and when `totalLines`
exceeds `linesWanted` drop the oldest line (`lines = lines[1:]`). -/
def tailStep (linesWanted : Int) (s : List String × Int) (x : String) : List String × Int :=
  let lines := s.1 ++ [x]
  let totalLines := s.2 + 1
  if totalLines > linesWanted then (lines.tail, totalLines) else (lines, totalLines)

/-- One iteration of the head (no offset) loop of `GetLines` (part_004
lines 65-71): keep the line while fewer than `linesWanted` lines have
been scanned, then bump `totalLines`. -/
def headStep (linesWanted : Int) (s : List String × Int) (x : String) : List String × Int :=
  (if s.2 < linesWanted then s.1 ++ [x] else s.1, s.2 + 1)

/-- One iteration of the head-with-offset loop of `GetLines` (part_004
lines 49-55): keep the line when the running 1-based counter has reached
`linesWanted`, then bump the counter. -/
def offsetStep (linesWanted : Int) (s : List String × Int) (x : String) : List String × Int :=
  (if s.2 ≥ linesWanted then s.1 ++ [x] else s.1, s.2 + 1)

/-- The scanning part of `GetLines` on an already-opened stream.  In the
offset branch the Go code initializes `totalLines` to 1; in the other two
branches to 0. -/
def getLinesCore (head startAtOffset : Bool) (linesWanted : Int)
    (stream : List String) : List String × Int :=
  if head then
    if startAtOffset then stream.foldl (offsetStep linesWanted) ([], 1)
    else stream.foldl (headStep linesWanted) ([], 0)
  else stream.foldl (tailStep linesWanted) ([], 0)

/-- Result of `GetLines`: the returned triple plus what the function
wrote to the error stream (on an open failure it prints `err.Error()`
to `os.Stderr` before returning). -/
structure GetLinesResult where
  lines : List String
  totalLines : Int
  err : Option String
  stderrOut : List String
deriving Repr, DecidableEq

/-- Embedding of `input.GetLines`.  The function first checks whether
stdin is non-interactive (`stat.Mode() & os.ModeCharDevice == 0`); if so
it scans stdin and the path is ignored, otherwise it opens the path
(`openResult` is the outcome of `os.Open` plus reading the file).  An
open failure is printed to stderr and returned; `lines` is still `nil`
and `totalLines` still 0 at that point. -/
def getLines (stdinPiped : Bool) (stdinLines : List String)
    (openResult : Except String (List String))
    (head startAtOffset : Bool) (linesWanted : Int) : GetLinesResult :=
  match (if stdinPiped then Except.ok stdinLines else openResult) with
  | Except.error e => ⟨[], 0, some e, [e]⟩
  | Except.ok stream =>
      let r := getLinesCore head startAtOffset linesWanted stream
      ⟨r.1, r.2, none, []⟩

/-! ## Output multiplexer: the `linePrinter` consumer goroutine
(cmd/gotail/output/output.go lines 350-362)

The single consumer ranges over the `messages` channel.  Its behaviour is
a left fold over the consumed messages, the accumulator being the
`currentPath` field (initialized to the empty string) together with the
tokens printed so far.  A printed `fmt.Println()` with no argument is a
`blank` token, the `==> {path} <==` line a `header` token, and a line of
text a `text` token.
-/

/-- A value sent on the printer channel: source path and line text. -/
structure Msg where
  path : String
  line : String
deriving Repr, DecidableEq

/-- A token printed by the line printer. -/
inductive OutTok where
  | blank : OutTok
  | header (path : String) : OutTok
  | text (line : String) : OutTok
deriving Repr, DecidableEq

/-- Whether a printed token is a `==> {path} <==` header. -/
def OutTok.isHeader : OutTok → Bool
  | OutTok.header _ => true
  | _ => false

/-- One message consumed by the printer goroutine: if the incoming path
equals `currentPath`, print only the line; otherwise set `currentPath`,
print a blank line, the header, and the line. -/
def printStep (s : String × List OutTok) (m : Msg) : String × List OutTok :=
  if s.1 = m.path then (s.1, s.2 ++ [OutTok.text m.line])
  else (m.path, s.2 ++ [OutTok.blank, OutTok.header m.path, OutTok.text m.line])

/-- The tokens printed by the consumer goroutine after it has consumed
`msgs`, starting from the initial `currentPath = ""`. -/
def printerRun (msgs : List Msg) : List OutTok :=
  (msgs.foldl printStep ("", [])).2

/-- The block of tokens one message contributes, given the printer path
state when it is consumed. -/
def msgBlock (cur : String) (m : Msg) : List OutTok :=
  if cur = m.path then [OutTok.text m.line]
  else [OutTok.blank, OutTok.header m.path, OutTok.text m.line]

/-- Block-structured view of a printer run: each message contributes its
`msgBlock` and the state becomes that message's path (when the path was
equal this is a no-op). -/
def printerBlocks (cur : String) : List Msg → List OutTok
  | [] => []
  | m :: rest => msgBlock cur m ++ printerBlocks m.path rest

/-- Number of path changes along a path sequence, starting from state
`cur`: one per element that differs from its predecessor (with `cur` as
the predecessor of the first element). -/
def countChanges : String → List String → Nat
  | _, [] => 0
  | cur, q :: rest => (if q = cur then 0 else 1) + countChanges q rest

/-- Number of maximal contiguous runs of equal elements in a path
sequence. -/
def countRuns : List String → Nat
  | [] => 0
  | p :: rest => 1 + countChanges p rest

/-- Every header token in the list is preceded by a blank token and
immediately followed by a text token. -/
def headerWrapped (l : List OutTok) : Prop :=
  ∀ q p, l.get? q = some (OutTok.header p) →
    1 ≤ q ∧ l.get? (q - 1) = some OutTok.blank ∧ ∃ s, l.get? (q + 1) = some (OutTok.text s)

/-! ## Glob resolver: `expandGlobs` (cmd/gotail/gotail.go lines 110-145)

`filepath.Glob`, `filepath.Abs` and `filepath.Clean` are environment
parameters.  `err` in the Go function is a named return value: the glob
loop assigns it with `files, err = filepath.Glob(g)` on every iteration
and `continue`s on failure, so the value returned to the caller is the
error of the last `Glob` call (or the initial `nil` when there are no
patterns). -/

/-- Environment for `expandGlobs`: the file-system calls it makes.
`glob` is `filepath.Glob` (which fails only on bad pattern syntax),
`abs` is `filepath.Abs`, `clean` is `filepath.Clean`. -/
structure GlobEnv where
  glob : String → Except String (List String)
  abs : String → Option String
  clean : String → String

/-- Mark a path in the `found` set (Go: `found[path] = true`). -/
def addFound (found : List String) (p : String) : List String :=
  if p ∈ found then found else p :: found

/-- First loop of `expandGlobs`: mark every existing path (after
absolute-path resolution and cleaning) as found; paths whose resolution
fails are skipped. -/
def markExisting (env : GlobEnv) (found : List String) : List String → List String
  | [] => found
  | p :: rest =>
    match env.abs p with
    | none => markExisting env found rest
    | some full => markExisting env (addFound found (env.clean full)) rest

/-- Inner loop over the matches of one glob pattern: resolve, clean,
and append paths not yet in `found`. -/
def globMatchLoop (env : GlobEnv) (expanded found : List String) :
    List String → List String × List String
  | [] => (expanded, found)
  | p :: rest =>
    match env.abs p with
    | none => globMatchLoop env expanded found rest
    | some full =>
      let cp := env.clean full
      if cp ∈ found then globMatchLoop env expanded found rest
      else globMatchLoop env (expanded ++ [cp]) (addFound found cp) rest

/-- Outer loop of `expandGlobs` over the glob patterns.  The `err` slot
is the named return value: a failing `Glob` stores its error and skips
the pattern, a succeeding `Glob` resets it to `none`. -/
def globLoop (env : GlobEnv) (expanded found : List String) (err : Option String) :
    List String → List String × Option String
  | [] => (expanded, err)
  | g :: rest =>
    match env.glob g with
    | Except.error e => globLoop env expanded found (some e) rest
    | Except.ok files =>
      let r := globMatchLoop env expanded found files
      globLoop env r.1 r.2 none rest

/-- Embedding of `expandGlobs`: seed `expanded` with the existing paths,
mark their resolved forms as found, then run the glob loop. -/
def expandGlobs (env : GlobEnv) (globs existing : List String) :
    List String × Option String :=
  globLoop env existing (markExisting env [] existing) none globs

/-! ## Run coordinator: `runFiles` and the dispatch logic of `main`
(cmd/gotail/gotail.go)

Paths are an opaque type `α` with decidable equality: `runFiles` only
compares them (the `filesFollowed` map) and passes them to environment
calls.  Observable actions are recorded as a list of events. -/

/-- Environment for `runFiles`: `abs` is `filepath.Abs`; `openFile p` is
the outcome of `os.Open(p)` plus scanning the opened file (consumed by
`GetLines`); `followOk p` tells whether `os.Stat` and `tail.TailFile`
succeed in `NewFollowedFileForPath(p)`. -/
structure RunEnv (α : Type) where
  abs : α → Option α
  openFile : α → Except String (List String)
  followOk : α → Bool

/-- Observable events of a run. `stderrLine` is a line written to the
error stream; `separator` is the `fmt.Println()` between files;
`windowWrite` is the call `write(files[i], head, lines, total)`;
`followerNew` is a successful `NewFollowedFileForPath`; `followerUnlock`
is `ff.Unlock()`. -/
inductive RunEv (α : Type) where
  | stderrLine (s : String) : RunEv α
  | separator : RunEv α
  | windowWrite (path : α) (lines : List String) (total : Int) : RunEv α
  | followerNew (path : α) : RunEv α
  | followerUnlock (path : α) : RunEv α
deriving Repr, DecidableEq

/-- State threaded through `runFiles`: `tracked` is the key set of the
`filesFollowed` map in insertion order, `followed` the paths of
`newFollowedFiles` for the current pass, `events` the observable actions
so far, `foundNew` the flag of the same name. -/
structure RunState (α : Type) where
  tracked : List α
  followed : List α
  events : List (RunEv α)
  foundNew : Bool
deriving Repr, DecidableEq

/-- The body of the `for i := 0; i < len(files); i++` loop of `runFiles`
(gotail.go lines 366-402).  `total` is `len(files)` and `i` the loop
index, used for the blank-line separator. -/
def runFilesGo {α : Type} [DecidableEq α] (env : RunEnv α)
    (follow head startAtOffset : Bool) (numLines : Int) (total : Nat) :
    Nat → RunState α → List α → RunState α
  | _, st, [] => st
  | i, st, p :: rest =>
    match env.abs p with
    | none => runFilesGo env follow head startAtOffset numLines total (i + 1) st rest
    | some ap =>
      if ap ∈ st.tracked then
        runFilesGo env follow head startAtOffset numLines total (i + 1) st rest
      else
        let st1 : RunState α :=
          { st with tracked := st.tracked ++ [ap], foundNew := true }
        let r := getLines false [] (env.openFile p) head startAtOffset numLines
        let st2 : RunState α :=
          { st1 with events := st1.events ++ r.stderrOut.map RunEv.stderrLine }
        match r.err with
        | some _ => runFilesGo env follow head startAtOffset numLines total (i + 1) st2 rest
        | none =>
          if follow ∧ ¬ env.followOk p then
            runFilesGo env follow head startAtOffset numLines total (i + 1) st2 rest
          else
            let st3 : RunState α :=
              if follow then { st2 with events := st2.events ++ [RunEv.followerNew p],
                                        followed := st2.followed ++ [p] }
              else st2
            let st4 : RunState α :=
              { st3 with events := st3.events
                  ++ (if 0 < i ∧ 1 < total then [RunEv.separator] else [])
                  ++ [RunEv.windowWrite p r.lines r.totalLines] }
            runFilesGo env follow head startAtOffset numLines total (i + 1) st4 rest

/-- Embedding of `runFiles` (gotail.go lines 360-412): run the loop,
then, when `foundNew`, unlock every follower constructed in this pass. -/
def runFilesM {α : Type} [DecidableEq α] (env : RunEnv α)
    (follow head startAtOffset : Bool) (numLines : Int)
    (tracked : List α) (files : List α) : RunState α :=
  let st := runFilesGo env follow head startAtOffset numLines files.length 0
    ⟨tracked, [], [], false⟩ files
  if st.foundNew then
    { st with events := st.events ++ st.followed.map RunEv.followerUnlock }
  else st

/-- Sequence of `runFiles` passes of the follow loop (gotail.go lines
420-436), one per `expandGlobs` rescan result; `tracked` persists across
passes, events accumulate. -/
def followLoop {α : Type} [DecidableEq α] (env : RunEnv α)
    (head startAtOffset : Bool) (numLines : Int) :
    RunState α → List (List α) → RunState α
  | st, [] => st
  | st, fs :: rest =>
    let st' := runFilesM env true head startAtOffset numLines st.tracked fs
    followLoop env head startAtOffset numLines
      ⟨st'.tracked, st.followed ++ st'.followed, st.events ++ st'.events,
        st.foundNew || st'.foundNew⟩ rest

/-! ## Flag resolution and the dispatch logic of `main`
(cmd/gotail/gotail.go lines 147-227 and 322-447) -/

/-- Digits of a decimal string, as in `strconv.Atoi`: `none` when the
character list is empty or contains a non-digit. -/
def digitsToNat (l : List Char) : Option Nat :=
  if l = [] then none
  else if l.all Char.isDigit then
    some (l.foldl (fun acc c => acc * 10 + (c.toNat - '0'.toNat)) 0)
  else none

/-- Embedding of `strconv.Atoi` on a character list: optional sign
followed by digits. -/
def goAtoiChars : List Char → Option Int
  | '+' :: rest => (digitsToNat rest).map Int.ofNat
  | '-' :: rest => (digitsToNat rest).map (fun n => -(n : Int))
  | l => (digitsToNat l).map Int.ofNat

/-- Embedding of `strconv.Atoi`. -/
def goAtoi (s : String) : Option Int :=
  goAtoiChars s.data

/-- The test `strings.HasPrefix(numLinesStr, "+")`: the first character
is `'+'`. -/
def hasPlusSign (s : String) : Bool :=
  match s.data with
  | '+' :: _ => true
  | _ => false

/-- The regular-expression test `^[0-9]+$` on the `-n` value. -/
def justDigits (s : String) : Bool :=
  !s.data.isEmpty && s.data.all Char.isDigit

/-- Configuration resolved by `main` from the flags: the final values of
`head`, `follow`, `startAtOffset` and `numLines`. -/
structure ResolvedFlags where
  head : Bool
  follow : Bool
  startAtOffset : Bool
  numLines : Int
deriving Repr, DecidableEq

/-- Embedding of the flag-resolution part of `main` (gotail.go lines
152-226).  Order matters and follows the source: the `-n` default is
applied, then `follow` is cleared when `head && follow` holds (lines
182-184, using the `-H` value of `head`), and only afterwards does the
`+N` branch set `head = true` and `startAtOffset = true` (lines 202-216).
`none` models `os.Exit(1)` on an unparseable `-n` value. -/
def resolveFlags (headFlag followFlag : Bool) (numLinesStr : String) :
    Option ResolvedFlags :=
  let nstr := if numLinesStr = "" then "10" else numLinesStr
  let follow1 := if headFlag && followFlag then false else followFlag
  if justDigits nstr then
    match goAtoi nstr with
    | none => none
    | some n => some ⟨headFlag, follow1, false, n⟩
  else
    if hasPlusSign nstr then
      match goAtoiChars nstr.data.tail with
      | none => none
      | some n => some ⟨true, follow1, true, n⟩
    else none

/-- Fixed ceiling on the number of files, set in `init`
(gotail.go lines 80-85). -/
def rlimit : Nat := 1000

/-- Environment of one run of `main`: whether stdin is non-interactive
and its lines, the `runFiles` environment, the initial `expandGlobs`
result, whether glob patterns were supplied, and the successive
`expandGlobs` results seen by the follow loop. -/
structure MainEnv (α : Type) where
  stdinPiped : Bool
  stdinLines : List String
  runEnv : RunEnv α
  initialFiles : List α
  hasGlobs : Bool
  rescans : List (List α)

/-- Outcome of `main` after flag resolution.  `exitError` is an
`os.Exit(1)` with a message on the error stream; `stdinRun` is the
stdin branch (write the window, `os.Exit(0)`); `singlePass` is the
non-follow branch (one `runFiles` pass, then the process ends with exit
code 0); `followRun` is the follow branch (passes run until the process
is interrupted). -/
inductive MainOutcome (α : Type) where
  | exitError (msg : String) : MainOutcome α
  | stdinRun (res : GetLinesResult) : MainOutcome α
  | singlePass (st : RunState α) : MainOutcome α
  | followRun (st : RunState α) : MainOutcome α

/-- Embedding of the dispatch logic of `main` (gotail.go lines 322-447):
resolve flags; if stdin is non-interactive, scan stdin and exit 0
(files, globs and follow are never consulted); otherwise check for an
empty file list and the `rlimit` ceiling, then run one pass (no follow)
or the follow loop (with rescans only when glob patterns were given). -/
def mainModel {α : Type} [DecidableEq α] (env : MainEnv α)
    (headFlag followFlag : Bool) (numLinesStr : String) : MainOutcome α :=
  match resolveFlags headFlag followFlag numLinesStr with
  | none => MainOutcome.exitError "Invalid -n value"
  | some fl =>
    if env.stdinPiped then
      MainOutcome.stdinRun
        (getLines true env.stdinLines (Except.error "no path")
          fl.head fl.startAtOffset fl.numLines)
    else if env.initialFiles.length = 0 then
      MainOutcome.exitError "No files specified. Exiting with usage information."
    else if rlimit < env.initialFiles.length then
      MainOutcome.exitError "Too many files specified. Max is 1000"
    else if fl.follow = false then
      MainOutcome.singlePass
        (runFilesM env.runEnv false fl.head fl.startAtOffset fl.numLines [] env.initialFiles)
    else
      MainOutcome.followRun
        (followLoop env.runEnv fl.head fl.startAtOffset fl.numLines ⟨[], [], [], false⟩
          (if env.hasGlobs then env.rescans else [env.initialFiles]))

/-! ## Release-gate synchronization of one pass, as an interleaving
transition system

One `runFiles` pass over `nP` paths constructs `nF` followers.  The
coordinator goroutine executes, in program order, the `nP` initial
window writes and then the `nF` gate releases (gotail.go lines 366-411).
The goroutine started by `NewFollowedFileForPath` (output.go lines
432-448) first blocks on `<-ff.ch` and only then enters its emit loop;
`ff.Unlock()` is the matching send on the unbuffered channel, so in any
linearization the receive does not occur before the send — the two are
modelled as one atomic `unlock` event that also releases the follower.
A released follower may emit any number of lines at any later point. -/

/-- An event of one pass: an initial window write for path index `i`,
the gate release of follower `i`, or a line emission by follower `i`. -/
inductive PassEv where
  | write (i : Nat) : PassEv
  | unlock (i : Nat) : PassEv
  | emit (i : Nat) : PassEv
deriving Repr, DecidableEq

/-- Configuration of a pass: `pc` is the coordinator's program counter
(steps `0..nP-1` are writes, `nP..nP+nF-1` are releases), `running i`
whether follower `i` has passed its gate receive. -/
structure PassCfg where
  pc : Nat
  running : Nat → Bool

/-- Initial configuration: coordinator at its first write, no follower
released. -/
def initCfg : PassCfg := ⟨0, fun _ => false⟩

/-- Interleaving steps of one pass with `nP` paths and `nF` followers. -/
inductive PassStep (nP nF : Nat) : PassCfg → PassEv → PassCfg → Prop where
  | write (c : PassCfg) (h : c.pc < nP) :
      PassStep nP nF c (PassEv.write c.pc) ⟨c.pc + 1, c.running⟩
  | release (c : PassCfg) (h1 : nP ≤ c.pc) (h2 : c.pc < nP + nF) :
      PassStep nP nF c (PassEv.unlock (c.pc - nP))
        ⟨c.pc + 1, fun j => if j = c.pc - nP then true else c.running j⟩
  | emit (c : PassCfg) (i : Nat) (h : c.running i = true) :
      PassStep nP nF c (PassEv.emit i) c

/-- Traces of one pass: sequences of events reachable from `initCfg` by
interleaving steps, together with the configuration reached. -/
inductive PassTrace (nP nF : Nat) : List PassEv → PassCfg → Prop where
  | nil : PassTrace nP nF [] initCfg
  | snoc (tr : List PassEv) (c : PassCfg) (e : PassEv) (c' : PassCfg) :
      PassTrace nP nF tr c → PassStep nP nF c e c' → PassTrace nP nF (tr ++ [e]) c'

/-! ## Helper predicates and concrete environments used in the theorems -/

/-- Whether a run event is a line on the error stream. -/
def isStderrEv {α : Type} : RunEv α → Bool
  | RunEv.stderrLine _ => true
  | _ => false

/-- Whether a run event is the construction of a follower. -/
def isFollowerNewEv {α : Type} : RunEv α → Bool
  | RunEv.followerNew _ => true
  | _ => false

/-- Whether a `main` outcome is the follow branch (the process keeps
running, waiting for the interrupt signal). -/
def isFollowRun {α : Type} : MainOutcome α → Bool
  | MainOutcome.followRun _ => true
  | _ => false

/-- A benign environment over `Nat` paths: absolute-path resolution is
the identity, every file opens as an empty stream, every follower
construction succeeds. -/
def niceEnv : RunEnv Nat := ⟨fun p => some p, fun _ => Except.ok [], fun _ => true⟩

/-- A rescan result of 1001 paths, all distinct from path `0`. -/
def rescanBig : List Nat := (List.range 1001).map (fun i => i + 1)

/-- A run with glob patterns whose first pass sees one file and whose
rescan sees 1001 new files. -/
def bigMainEnv : MainEnv Nat := ⟨false, [], niceEnv, [0], true, [[0], rescanBig]⟩

/-- A run on one explicit file with no glob patterns. -/
def oneFileMainEnv : MainEnv Nat := ⟨false, [], niceEnv, [0], false, []⟩

/-! ## Lemmas about the line window extractor -/

theorem tail_append_of_ne_nil {α : Type} (a b : List α) (h : a ≠ []) :
    (a ++ b).tail = a.tail ++ b := by
  cases a with
  | nil => exact absurd rfl h
  | cons x xs => simp

/-- The tail loop of `GetLines` computes the last `min k L` lines and
counts every scanned line. -/
theorem tailFold_eq (k : Nat) (xs : List String) :
    xs.foldl (tailStep (k : Int)) ([], 0) = (xs.drop (xs.length - k), (xs.length : Int)) := by
  induction xs using List.reverseRecOn with
  | nil => simp
  | append_singleton xs x ih =>
    rw [List.foldl_append, ih]
    simp only [List.foldl_cons, List.foldl_nil]
    by_cases hk : k ≤ xs.length
    · have hcond : ((xs.length : Int) + 1 > (k : Int)) := by
        have := Nat.lt_succ_of_le hk
        exact_mod_cast this
      simp only [tailStep, if_pos hcond]
      rcases Nat.eq_zero_or_pos k with hk0 | hkpos
      · subst hk0
        simp
      · have h1 : xs.length - k + 1 = xs.length + 1 - k := by omega
        have hne : xs.drop (xs.length - k) ≠ [] := by
          intro hemp
          have := congrArg List.length hemp
          simp [List.length_drop] at this
          omega
        rw [tail_append_of_ne_nil _ _ hne, List.tail_drop, h1]
        have h2 : xs.length + 1 - k ≤ xs.length := by omega
        have h3 : (xs ++ [x]).length - k = xs.length + 1 - k := by
          simp [List.length_append]
        rw [h3, List.drop_append_of_le_length h2]
        simp [List.length_append]
    · have hcond : ¬ ((xs.length : Int) + 1 > (k : Int)) := by
        push_neg
        have : xs.length + 1 ≤ k := by omega
        exact_mod_cast this
      simp only [tailStep, if_neg hcond]
      have h1 : xs.length - k = 0 := by omega
      have h2 : xs.length + 1 - k = 0 := by omega
      simp [h1, h2]

/-- The head loop of `GetLines` with `linesWanted = 0` never retains a
line: the guard `totalLines < 0` is false throughout. -/
theorem headFold_nonpos (xs : List String) :
    ∀ (w : List String) (t : Int), 0 ≤ t →
      xs.foldl (headStep 0) (w, t) = (w, t + xs.length) := by
  induction xs with
  | nil => intro w t _; simp
  | cons x xs ih =>
    intro w t ht
    have hcond : ¬ (t < 0) := by omega
    simp only [List.foldl_cons, headStep, if_neg hcond]
    rw [ih w (t + 1) (by omega), Prod.ext_iff]
    refine ⟨rfl, ?_⟩
    simp only [List.length_cons]
    push_cast
    ring

/-- The offset loop of `GetLines`: starting the 1-based counter at `t`,
it retains the lines whose counter value is at least `k` and leaves the
counter one past the last line. -/
theorem offsetFold_eq (k : Int) (xs : List String) :
    ∀ (w : List String) (t : Int),
      xs.foldl (offsetStep k) (w, t) = (w ++ xs.drop (k - t).toNat, t + xs.length) := by
  induction xs with
  | nil => intro w t; simp
  | cons x xs ih =>
    intro w t
    simp only [List.foldl_cons, offsetStep]
    by_cases hge : t ≥ k
    · rw [if_pos hge, ih]
      have h0 : (k - t).toNat = 0 := by omega
      have h1 : (k - (t + 1)).toNat = 0 := by omega
      simp only [h0, h1, List.drop_zero, List.length_cons]
      rw [List.append_assoc, Prod.ext_iff]
      refine ⟨by simp, ?_⟩
      push_cast
      ring
    · rw [if_neg hge, ih]
      have h1 : (k - t).toNat = (k - (t + 1)).toNat + 1 := by omega
      simp only [h1, List.drop_succ_cons, List.length_cons]
      rw [Prod.ext_iff]
      refine ⟨rfl, ?_⟩
      push_cast
      ring

/-- C1: in Tail mode (`head = false`), `GetLines` on a stream of `L`
lines with requested count `k ≥ 0` returns exactly the last `min k L`
lines in original order (`min k L` of them), reports `totalLines = L`
and no error, and the sliding window holds at most `k` lines after
every loop iteration — hence at most `k + 1` lines at any instant,
the maximum being reached between the append and the eviction. -/
theorem tail_mode_correct (k : Nat) (xs : List String) (startAtOffset : Bool) :
    ((getLines false [] (Except.ok xs) false startAtOffset (k : Int)).lines
        = xs.drop (xs.length - k)
      ∧ (getLines false [] (Except.ok xs) false startAtOffset (k : Int)).lines.length
        = min k xs.length
      ∧ (getLines false [] (Except.ok xs) false startAtOffset (k : Int)).totalLines
        = (xs.length : Int)
      ∧ (getLines false [] (Except.ok xs) false startAtOffset (k : Int)).err = none)
    ∧ (∀ l₁ l₂ : List String, xs = l₁ ++ l₂ →
        (l₁.foldl (tailStep (k : Int)) ([], 0)).1.length ≤ k
        ∧ ∀ x : String,
            ((l₁.foldl (tailStep (k : Int)) ([], 0)).1 ++ [x]).length ≤ k + 1) := by
  have hcore : ∀ l : List String,
      l.foldl (tailStep (k : Int)) ([], 0) = (l.drop (l.length - k), (l.length : Int)) :=
    tailFold_eq k
  have hg : getLines false [] (Except.ok xs) false startAtOffset (k : Int)
      = ⟨xs.drop (xs.length - k), (xs.length : Int), none, []⟩ := by
    simp [getLines, getLinesCore, hcore xs]
  constructor
  · rw [hg]
    refine ⟨rfl, ?_, rfl, rfl⟩
    simp only [List.length_drop]
    omega
  · intro l₁ l₂ hsplit
    rw [hcore l₁]
    constructor
    · simp only [List.length_drop]
      omega
    · intro x
      simp only [List.length_append, List.length_drop, List.length_singleton]
      omega

/-- Witness for C1 at `k = 2` on a three-line stream. -/
theorem tail_mode_correct_witness :
    (getLines false [] (Except.ok ["a", "b", "c"]) false false ((2 : Nat) : Int)).lines
      = ["b", "c"]
    ∧ (List.foldl (tailStep ((2 : Nat) : Int)) ([], 0) ["a", "b"]).1.length ≤ 2 := by
  have h := tail_mode_correct 2 ["a", "b", "c"] false
  refine ⟨?_, (h.2 ["a", "b"] ["c"] rfl).1⟩
  rw [h.1.1]
  rfl

/-- C9: with a line count of 0, `GetLines` in Tail mode or Head mode
(not offset) returns an empty window, `totalLines = L` and no error. -/
theorem zero_count_empty_window (xs : List String) (startAtOffset : Bool) :
    getLines false [] (Except.ok xs) false startAtOffset 0
      = ⟨[], (xs.length : Int), none, []⟩
    ∧ getLines false [] (Except.ok xs) true false 0
      = ⟨[], (xs.length : Int), none, []⟩ := by
  constructor
  · have h := tailFold_eq 0 xs
    simp only [Nat.cast_zero] at h
    simp [getLines, getLinesCore, h, List.drop_length]
  · have h := headFold_nonpos xs [] 0 le_rfl
    simp [getLines, getLinesCore, h]

/-- C2 counterexample: on a one-line stream (`L = 1`) with offset
`k = 1`, `GetLines` returns `totalLines = 2`, not `L = 1`: the offset
branch initializes `totalLines` to 1 and increments it once per line. -/
theorem offset_total_cex :
    (getLines false [] (Except.ok ["a"]) true true 1).totalLines = 2
    ∧ ¬ ((getLines false [] (Except.ok ["a"]) true true 1).totalLines
          = ((["a"] : List String).length : Int)) := by
  decide

/-- C2 (amended): in Head-with-offset mode, `GetLines` returns the
lines at 1-based positions `k` through `L` in original order (empty
when `k > L`) with no error, but `totalLines` is `L + 1`, one more than
the number of lines in the stream. -/
theorem offset_mode_amended (k : Int) (xs : List String) :
    (getLines false [] (Except.ok xs) true true k).lines = xs.drop (k - 1).toNat
    ∧ (getLines false [] (Except.ok xs) true true k).totalLines = (xs.length : Int) + 1
    ∧ (getLines false [] (Except.ok xs) true true k).err = none := by
  have h := offsetFold_eq k xs [] 1
  simp only [List.nil_append] at h
  simp [getLines, getLinesCore, h]
  ring

/-! ## Lemmas about the line printer -/

/-- The printer fold appends, for each consumed message, the block of
tokens determined by the path state at that message. -/
theorem printerFold_eq_blocks (msgs : List Msg) :
    ∀ (cur : String) (acc : List OutTok),
      (msgs.foldl printStep (cur, acc)).2 = acc ++ printerBlocks cur msgs := by
  induction msgs with
  | nil => intro cur acc; simp [printerBlocks]
  | cons m rest ih =>
    intro cur acc
    simp only [List.foldl_cons, printStep, printerBlocks, msgBlock]
    by_cases hc : cur = m.path
    · rw [if_pos hc, if_pos hc, ih, List.append_assoc, hc]
    · rw [if_neg hc, if_neg hc, ih, List.append_assoc]

/-- The number of headers in a block run equals the number of path
changes relative to the incoming path state. -/
theorem blocks_header_count (msgs : List Msg) :
    ∀ cur : String,
      (printerBlocks cur msgs).countP OutTok.isHeader
        = countChanges cur (msgs.map Msg.path) := by
  induction msgs with
  | nil => intro cur; simp [printerBlocks, countChanges]
  | cons m rest ih =>
    intro cur
    simp only [printerBlocks, msgBlock, List.map_cons, countChanges, List.countP_append, ih]
    by_cases hc : cur = m.path
    · rw [if_pos hc, if_pos (by rw [hc])]
      simp [List.countP, List.countP.go, OutTok.isHeader]
    · rw [if_neg hc, if_neg (fun h => hc h.symm)]
      simp [List.countP, List.countP.go, OutTok.isHeader]

theorem headerWrapped_append {a b : List OutTok}
    (ha : headerWrapped a) (hb : headerWrapped b) : headerWrapped (a ++ b) := by
  intro q p h
  by_cases hq : q < a.length
  · rw [List.get?_append hq] at h
    obtain ⟨h1, h2, s, h3⟩ := ha q p h
    have h3lt : q + 1 < a.length := by
      rcases List.get?_eq_some.mp h3 with ⟨hlt, _⟩
      exact hlt
    refine ⟨h1, ?_, s, ?_⟩
    · rw [List.get?_append (by omega)]
      exact h2
    · rw [List.get?_append h3lt]
      exact h3
  · push_neg at hq
    rw [List.get?_append_right hq] at h
    obtain ⟨h1, h2, s, h3⟩ := hb (q - a.length) p h
    refine ⟨by omega, ?_, s, ?_⟩
    · rw [List.get?_append_right (by omega)]
      have heq : q - 1 - a.length = q - a.length - 1 := by omega
      rw [heq]
      exact h2
    · rw [List.get?_append_right (by omega)]
      have heq : q + 1 - a.length = q - a.length + 1 := by omega
      rw [heq]
      exact h3

theorem headerWrapped_msgBlock (cur : String) (m : Msg) :
    headerWrapped (msgBlock cur m) := by
  intro q p h
  by_cases hc : cur = m.path
  · simp only [msgBlock, if_pos hc] at h
    rcases q with _ | q
    · simp at h
    · rcases q with _ | q <;> simp at h
  · simp only [msgBlock, if_neg hc] at h ⊢
    rcases q with _ | q
    · simp at h
    · rcases q with _ | q
      · exact ⟨le_refl 1, rfl, m.line, rfl⟩
      · rcases q with _ | q <;> simp at h

theorem headerWrapped_blocks (msgs : List Msg) :
    ∀ cur : String, headerWrapped (printerBlocks cur msgs) := by
  induction msgs with
  | nil => intro cur q p h; simp [printerBlocks] at h
  | cons m rest ih =>
    intro cur
    exact headerWrapped_append (headerWrapped_msgBlock cur m) (ih m.path)

/-- C4 counterexample: a single message whose `sourcePath` is the empty
string — the initial value of `lastPrintedPath` — forms one maximal run
but the printer emits zero headers, so the count "exactly P headers"
fails as universally stated. -/
theorem printer_header_cex :
    countRuns ([Msg.mk "" "x"].map Msg.path) = 1
    ∧ (printerRun [Msg.mk "" "x"]).countP OutTok.isHeader = 0 := by
  decide

/-- C4 (amended): the printer emits a header exactly when the incoming
`sourcePath` differs from `lastPrintedPath` (the block decomposition),
so over a message sequence it emits one header per path change counted
from the initial empty path; when the first message's path is nonempty
this is exactly `P`, the number of maximal contiguous runs.  Every
header is preceded by a blank line and immediately followed by the line
text of the message that triggered it. -/
theorem printer_header_invariant (msgs : List Msg) :
    printerRun msgs = printerBlocks "" msgs
    ∧ (printerRun msgs).countP OutTok.isHeader = countChanges "" (msgs.map Msg.path)
    ∧ (∀ m rest, msgs = m :: rest → m.path ≠ "" →
        (printerRun msgs).countP OutTok.isHeader = countRuns (msgs.map Msg.path))
    ∧ headerWrapped (printerRun msgs) := by
  have hpb : printerRun msgs = printerBlocks "" msgs := by
    unfold printerRun
    rw [printerFold_eq_blocks msgs "" []]
    simp
  refine ⟨hpb, ?_, ?_, ?_⟩
  · rw [hpb, blocks_header_count]
  · intro m rest hm hne
    rw [hpb, blocks_header_count, hm]
    simp only [List.map_cons, countChanges, countRuns]
    rw [if_neg hne]
  · rw [hpb]
    exact headerWrapped_blocks msgs ""

/-- Witness for C4 (amended) on two messages with distinct nonempty
paths: two runs, two headers. -/
theorem printer_header_invariant_witness :
    (printerRun [Msg.mk "a" "1", Msg.mk "b" "2"]).countP OutTok.isHeader = 2 := by
  have h := (printer_header_invariant [Msg.mk "a" "1", Msg.mk "b" "2"]).2.2.1
    (Msg.mk "a" "1") [Msg.mk "b" "2"] rfl (by decide)
  rw [h]
  decide

/-! ## expandGlobs error behaviour -/

/-- C5: `err` is a named return value assigned by `files, err =
filepath.Glob(g)` on every pattern; a failing pattern is skipped but its
error is not cleared, so when the last pattern has invalid glob syntax
the caller receives a non-nil error (and `main` panics on it).  At glob
list `["["]` — `filepath.Glob` fails with `ErrBadPattern` on `"["` —
`expandGlobs` returns that error; a valid pattern after the bad one
resets the error to nil, confirming that only the last call's outcome
survives. -/
theorem expandGlobs_err_leak :
    (expandGlobs
      ⟨fun g => if g = "[" then Except.error "syntax error in pattern"
                else Except.ok ["m"],
        fun p => some p, fun p => p⟩
      ["["] []).2 = some "syntax error in pattern"
    ∧ (expandGlobs
        ⟨fun g => if g = "[" then Except.error "syntax error in pattern"
                  else Except.ok ["m"],
          fun p => some p, fun p => p⟩
        ["[", "ok"] []).2 = none
    ∧ (expandGlobs
        ⟨fun g => if g = "[" then Except.error "syntax error in pattern"
                  else Except.ok ["m"],
          fun p => some p, fun p => p⟩
        ["[", "ok"] []).1 = ["m"] := by
  refine ⟨rfl, rfl, rfl⟩

theorem runFilesGo_nice_tracked (h s : Bool) (k : Int) (total : Nat) :
    ∀ (files : List Nat) (st : RunState Nat) (i : Nat),
      files.Nodup → (∀ p ∈ files, p ∉ st.tracked) →
      (runFilesGo niceEnv true h s k total i st files).tracked = st.tracked ++ files
      ∧ (runFilesGo niceEnv true h s k total i st files).events.countP isStderrEv
          = st.events.countP isStderrEv := by
  intro files
  induction files with
  | nil => intro st i _ _; simp [runFilesGo]
  | cons p rest ih =>
    intro st i hnd hfresh
    have hpnotin : p ∉ st.tracked := hfresh p (List.mem_cons_self p rest)
    have hrest : ∀ q ∈ rest, q ∉ (st.tracked ++ [p]) := by
      intro q hq
      simp only [List.mem_append, List.mem_singleton]
      push_neg
      refine ⟨hfresh q (List.mem_cons_of_mem p hq), ?_⟩
      intro hqp
      exact (List.nodup_cons.mp hnd).1 (hqp ▸ hq)
    have hstep : runFilesGo niceEnv true h s k total i st (p :: rest)
        = runFilesGo niceEnv true h s k total (i + 1)
            { st with tracked := st.tracked ++ [p], foundNew := true,
                      followed := st.followed ++ [p],
                      events := st.events ++ [RunEv.followerNew p]
                        ++ (if 0 < i ∧ 1 < total then [RunEv.separator] else [])
                        ++ [RunEv.windowWrite p
                              (getLinesCore h s k []).1 (getLinesCore h s k []).2] }
            rest := by
      simp [runFilesGo, niceEnv, getLines, hpnotin]
    rw [hstep]
    obtain ⟨h1, h2⟩ := ih
      { st with tracked := st.tracked ++ [p], foundNew := true,
                followed := st.followed ++ [p],
                events := st.events ++ [RunEv.followerNew p]
                  ++ (if 0 < i ∧ 1 < total then [RunEv.separator] else [])
                  ++ [RunEv.windowWrite p
                        (getLinesCore h s k []).1 (getLinesCore h s k []).2] }
      (i + 1) (List.nodup_cons.mp hnd).2 hrest
    constructor
    · rw [h1]
      simp
    · rw [h2]
      simp only [List.countP_append]
      by_cases hc : 0 < i ∧ 1 < total <;>
        simp [hc, List.countP, List.countP.go, isStderrEv]


/-- A `runFiles` pass in a benign environment tracks every fresh path
and writes nothing to the error stream. -/
theorem runFilesM_nice (h s : Bool) (k : Int) (tracked files : List Nat)
    (hnd : files.Nodup) (hfresh : ∀ p ∈ files, p ∉ tracked) :
    (runFilesM niceEnv true h s k tracked files).tracked = tracked ++ files
    ∧ (runFilesM niceEnv true h s k tracked files).events.countP isStderrEv = 0 := by
  obtain ⟨h1, h2⟩ := runFilesGo_nice_tracked h s k files.length files
    ⟨tracked, [], [], false⟩ 0 hnd hfresh
  have hzero : ∀ l : List Nat,
      (l.map (RunEv.followerUnlock (α := Nat))).countP isStderrEv = 0 := by
    intro l
    rw [List.countP_eq_zero]
    intro a ha
    obtain ⟨x, _, rfl⟩ := List.mem_map.mp ha
    simp [isStderrEv]
  unfold runFilesM
  by_cases hf : (runFilesGo niceEnv true h s k files.length 0
      ⟨tracked, [], [], false⟩ files).foundNew <;>
    simp [hf, h1, h2, List.countP_append, hzero]

/-- C7 counterexample: with one initially resolved file (within the
ceiling) and a periodic rescan returning 1001 new files, the follow
loop tracks 1002 files — above the 1000 ceiling — without any error or
exit: the `rlimit` check runs only once, before the first pass
(gotail.go lines 350-354), and the rescan loop (lines 420-436) has no
check. -/
theorem follow_rescan_limit_cex :
    mainModel bigMainEnv false true "10"
      = MainOutcome.followRun
          (followLoop niceEnv false false 10 ⟨[], [], [], false⟩ [[0], rescanBig])
    ∧ 1000 < (followLoop niceEnv false false 10
          ⟨[], [], [], false⟩ [[0], rescanBig]).tracked.length
    ∧ (followLoop niceEnv false false 10
          ⟨[], [], [], false⟩ [[0], rescanBig]).events.countP isStderrEv = 0 := by
  have hnd : rescanBig.Nodup := by
    refine List.Nodup.map ?_ (List.nodup_range 1001)
    intro a b hab
    simp only [] at hab
    omega
  have hfresh : ∀ p ∈ rescanBig, p ∉ ([0] : List Nat) := by
    intro p hp
    obtain ⟨x, _, rfl⟩ := List.mem_map.mp hp
    simp
  obtain ⟨t1, e1⟩ := runFilesM_nice false false 10 [] [0] (by simp) (by simp)
  obtain ⟨t2, e2⟩ := runFilesM_nice false false 10 [0] rescanBig hnd hfresh
  have ht1 : (runFilesM niceEnv true false false 10 [] [0]).tracked = [0] := by
    simpa using t1
  refine ⟨rfl, ?_, ?_⟩
  · simp only [followLoop, ht1, t2]
    simp [rescanBig]
  · simp only [followLoop, ht1]
    simp [List.countP_append, e1, e2]


/-- C7 (amended): the 1000-file ceiling is enforced only on the
initially resolved file set: when it exceeds `rlimit`, `main` reports
the error and exits non-zero before any pass.  Files added by periodic
glob rescans are not checked against the ceiling (see the
counterexample), so the tracked set can exceed 1000 during follow. -/
theorem file_limit_initial_only {α : Type} [DecidableEq α] (env : MainEnv α)
    (hf nf : Bool) (n : String) (fl : ResolvedFlags)
    (hfl : resolveFlags hf nf n = some fl)
    (hstdin : env.stdinPiped = false)
    (hlim : 1000 < env.initialFiles.length) :
    mainModel env hf nf n
      = MainOutcome.exitError "Too many files specified. Max is 1000" := by
  have hne : ¬ env.initialFiles.length = 0 := by omega
  unfold mainModel
  rw [hfl]
  simp only [hstdin, Bool.false_eq_true, if_false]
  rw [if_neg hne, if_pos (show rlimit < env.initialFiles.length from hlim)]

theorem file_limit_initial_only_witness :
    mainModel (⟨false, [], niceEnv, List.replicate 1001 0, false, []⟩ : MainEnv Nat)
      false false "10"
      = MainOutcome.exitError "Too many files specified. Max is 1000" := by
  refine file_limit_initial_only _ false false "10" ⟨false, false, false, 10⟩ ?_ rfl ?_
  · rfl
  · rw [List.length_replicate]
    omega

/-- C6 (amended): a per-file open error during a pass causes only that
path to be skipped — it is tracked, contributes no window write and no
follower, and the loop continues with the remaining paths — but the
skip is not silent: `GetLines` writes the error message to the error
stream before returning.  `runFiles` itself adds no further message. -/
theorem perfile_error_skips_and_reports {α : Type} [DecidableEq α] (env : RunEnv α)
    (p q : α) (e : String) (L : List String) (follow h s : Bool) (k : Int)
    (habsp : env.abs p = some p) (habsq : env.abs q = some q)
    (hopenp : env.openFile p = Except.error e)
    (hopenq : env.openFile q = Except.ok L)
    (hfq : env.followOk q = true)
    (hne : q ≠ p) :
    runFilesM env follow h s k [] [p, q]
      = ⟨[p, q],
          (if follow then [q] else []),
          [RunEv.stderrLine e]
            ++ (if follow then [RunEv.followerNew q] else [])
            ++ [RunEv.separator,
                RunEv.windowWrite q (getLinesCore h s k L).1 (getLinesCore h s k L).2]
            ++ (if follow then [RunEv.followerUnlock q] else []),
          true⟩ := by
  by_cases hfol : follow <;>
    simp [runFilesM, runFilesGo, habsp, habsq, hopenp, hopenq, hfq, hne,
      getLines, hfol]


/-- C6 counterexample: a two-file pass whose first file fails to open
writes the open error to the error stream — one stderr line, refuting
"no message for the failed path is written to the error stream". -/
theorem perfile_error_not_silent_cex :
    (runFilesM (⟨fun p => some p,
        fun p => if p = 0 then Except.error "open 0: no such file or directory"
                 else Except.ok ["x"],
        fun _ => true⟩ : RunEnv Nat) false false false 1 [] [0, 1]).events.countP
        isStderrEv = 1
    ∧ RunEv.stderrLine "open 0: no such file or directory"
        ∈ (runFilesM (⟨fun p => some p,
            fun p => if p = 0 then Except.error "open 0: no such file or directory"
                     else Except.ok ["x"],
            fun _ => true⟩ : RunEnv Nat) false false false 1 [] [0, 1]).events := by
  decide

/-- Witness for C6 (amended): the bad path 0 is skipped with its error
reported on stderr, and path 1 is still processed and written. -/
theorem perfile_error_witness :
    runFilesM (⟨fun p => some p,
        fun p => if p = 0 then Except.error "open 0: no such file or directory"
                 else Except.ok ["x"],
        fun _ => true⟩ : RunEnv Nat) false false false 1 [] [0, 1]
      = ⟨[0, 1], [],
          [RunEv.stderrLine "open 0: no such file or directory",
            RunEv.separator, RunEv.windowWrite 1 ["x"] 1], true⟩ := by
  have h := perfile_error_skips_and_reports
    (⟨fun p => some p,
        fun p => if p = 0 then Except.error "open 0: no such file or directory"
                 else Except.ok ["x"],
        fun _ => true⟩ : RunEnv Nat)
    0 1 "open 0: no such file or directory" ["x"] false false false 1
    rfl rfl rfl rfl rfl (by decide)
  simpa using h

/-- With `follow = false` the pass loop constructs no follower and
emits no follower event. -/
theorem runFilesGo_nofollow {α : Type} [DecidableEq α] (env : RunEnv α)
    (h s : Bool) (k : Int) (total : Nat) :
    ∀ (files : List α) (st : RunState α) (i : Nat),
      (runFilesGo env false h s k total i st files).followed = st.followed
      ∧ (runFilesGo env false h s k total i st files).events.countP isFollowerNewEv
          = st.events.countP isFollowerNewEv := by
  intro files
  induction files with
  | nil => intro st i; simp [runFilesGo]
  | cons p rest ih =>
    intro st i
    cases habs : env.abs p with
    | none =>
      have hstep : runFilesGo env false h s k total i st (p :: rest)
          = runFilesGo env false h s k total (i + 1) st rest := by
        simp [runFilesGo, habs]
      rw [hstep]
      exact ih st (i + 1)
    | some ap =>
      by_cases hmem : ap ∈ st.tracked
      · have hstep : runFilesGo env false h s k total i st (p :: rest)
            = runFilesGo env false h s k total (i + 1) st rest := by
          simp [runFilesGo, habs, hmem]
        rw [hstep]
        exact ih st (i + 1)
      · cases hop : env.openFile p with
        | error e =>
          have hstep : runFilesGo env false h s k total i st (p :: rest)
              = runFilesGo env false h s k total (i + 1)
                  { st with tracked := st.tracked ++ [ap], foundNew := true,
                            events := st.events ++ [RunEv.stderrLine e] }
                  rest := by
            simp [runFilesGo, habs, hmem, getLines, hop]
          rw [hstep]
          obtain ⟨h1, h2⟩ := ih
            { st with tracked := st.tracked ++ [ap], foundNew := true,
                      events := st.events ++ [RunEv.stderrLine e] }
            (i + 1)
          refine ⟨by rw [h1], ?_⟩
          rw [h2]
          simp [List.countP_append, List.countP_cons, isFollowerNewEv]
        | ok L =>
          have hstep : runFilesGo env false h s k total i st (p :: rest)
              = runFilesGo env false h s k total (i + 1)
                  { st with tracked := st.tracked ++ [ap], foundNew := true,
                            events := st.events
                              ++ (if 0 < i ∧ 1 < total then [RunEv.separator] else [])
                              ++ [RunEv.windowWrite p
                                    (getLinesCore h s k L).1 (getLinesCore h s k L).2] }
                  rest := by
            simp [runFilesGo, habs, hmem, getLines, hop]
          rw [hstep]
          obtain ⟨h1, h2⟩ := ih
            { st with tracked := st.tracked ++ [ap], foundNew := true,
                      events := st.events
                        ++ (if 0 < i ∧ 1 < total then [RunEv.separator] else [])
                        ++ [RunEv.windowWrite p
                              (getLinesCore h s k L).1 (getLinesCore h s k L).2] }
            (i + 1)
          refine ⟨by rw [h1], ?_⟩
          rw [h2]
          by_cases hsep : 0 < i ∧ 1 < total <;>
            simp [hsep, List.countP_append, List.countP_cons, isFollowerNewEv]

/-- The three outcomes of flag resolution: failure, the all-digits
branch, and the `+N` offset branch.  In both success branches the
resolved `follow` is `followFlag` cleared when `headFlag` was set. -/
theorem resolveFlags_cases (hf f : Bool) (n : String) :
    resolveFlags hf f n = none
    ∨ (∃ m, resolveFlags hf f n
          = some ⟨hf, (if hf && f then false else f), false, m⟩)
    ∨ (∃ m, resolveFlags hf f n
          = some ⟨true, (if hf && f then false else f), true, m⟩) := by
  unfold resolveFlags
  by_cases hjd : justDigits (if n = "" then "10" else n) = true
  · simp only [hjd, if_true]
    cases goAtoi (if n = "" then "10" else n) with
    | none => exact Or.inl rfl
    | some m => exact Or.inr (Or.inl ⟨m, rfl⟩)
  · simp only [hjd, if_false, Bool.false_eq_true]
    by_cases hsw : hasPlusSign (if n = "" then "10" else n) = true
    · simp only [hsw, if_true]
      cases goAtoiChars (if n = "" then "10" else n).data.tail with
      | none => exact Or.inl rfl
      | some m => exact Or.inr (Or.inr ⟨m, rfl⟩)
    · simp only [hsw, if_false, Bool.false_eq_true]
      exact Or.inl trivial

/-- C8 (amended): follow is silently disabled only when the head
request comes from the `-H` flag: then the resolved configuration has
`follow = false`, the run never enters the follow branch, and a
non-follow pass constructs no followers.  A head request expressed as
a `+N` line-count argument is parsed after the `head && follow` check,
so it leaves `follow` unchanged (the program follows in head mode). -/
theorem head_flag_disables_follow {α : Type} [DecidableEq α] (env : MainEnv α)
    (nf : Bool) (n : String) :
    (∀ fl, resolveFlags true nf n = some fl → fl.follow = false)
    ∧ (∀ st, mainModel env true nf n ≠ MainOutcome.followRun st)
    ∧ (∀ (renv : RunEnv α) (h s : Bool) (k : Int) (tr files : List α),
        (runFilesM renv false h s k tr files).followed = []
        ∧ (runFilesM renv false h s k tr files).events.countP isFollowerNewEv = 0)
    ∧ (∀ fl, n ≠ "" → justDigits n = false → hasPlusSign n = true →
        resolveFlags false nf n = some fl →
        fl.follow = nf ∧ fl.head = true ∧ fl.startAtOffset = true) := by
  have hf1 : (if (true && nf) = true then false else nf) = false := by
    cases nf <;> rfl
  have hfol1 : ∀ fl, resolveFlags true nf n = some fl → fl.follow = false := by
    intro fl hfl
    rcases resolveFlags_cases true nf n with hc | ⟨m, hc⟩ | ⟨m, hc⟩ <;>
      rw [hc] at hfl
    · cases hfl
    · rw [Option.some.injEq] at hfl
      rw [← hfl]
      simp [hf1, ← hfl]
    · rw [Option.some.injEq] at hfl
      rw [← hfl]
      simp [hf1, ← hfl]
  refine ⟨hfol1, ?_, ?_, ?_⟩
  · intro st
    unfold mainModel
    cases hres : resolveFlags true nf n with
    | none => simp
    | some fl =>
      have hfalse := hfol1 fl hres
      by_cases h1 : env.stdinPiped = true <;>
        by_cases h2 : env.initialFiles.length = 0 <;>
          by_cases h3 : rlimit < env.initialFiles.length <;>
            simp [h1, h2, h3, hfalse]
  · intro renv h s k tr files
    obtain ⟨h1, h2⟩ := runFilesGo_nofollow renv h s k files.length files
      ⟨tr, [], [], false⟩ 0
    unfold runFilesM
    by_cases hf : (runFilesGo renv false h s k files.length 0
        ⟨tr, [], [], false⟩ files).foundNew <;>
      simp [hf, h1, h2, List.countP_append]
  · intro fl hne hjd hsw hfl
    have hn : (if n = "" then "10" else n) = n := by rw [if_neg hne]
    unfold resolveFlags at hfl
    rw [hn] at hfl
    simp only [hjd, Bool.false_eq_true, if_false, hsw, if_true] at hfl
    cases hga : goAtoiChars n.data.tail with
    | none => rw [hga] at hfl; cases hfl
    | some m =>
      rw [hga] at hfl
      rw [Option.some.injEq] at hfl
      rw [← hfl]
      refine ⟨?_, rfl, rfl⟩
      cases nf <;> rfl


/-- C8 counterexample: with follow requested and the head request
expressed as `-n +5`, the resolved configuration keeps
`follow = true` (and sets head-with-offset), and the run enters the
follow branch instead of performing a single pass: the
`head && follow` check at gotail.go lines 182-184 runs before the `+`
parsing at lines 202-216 sets `head`. -/
theorem head_plus_follow_cex :
    resolveFlags false true "+5" = some ⟨true, true, true, 5⟩
    ∧ isFollowRun (mainModel oneFileMainEnv false true "+5") = true := by
  constructor
  · rfl
  · rfl

/-- Witness for C8 (amended): with `-H` and `-f` both set the run is
not a follow run, and the resolved flags have `follow = false`. -/
theorem head_flag_disables_follow_witness :
    mainModel oneFileMainEnv true true "10"
      ≠ MainOutcome.followRun ⟨[], [], [], false⟩
    ∧ ((⟨true, false, false, 10⟩ : ResolvedFlags)).follow = false := by
  have h := head_flag_disables_follow oneFileMainEnv true "10"
  exact ⟨h.2.1 ⟨[], [], [], false⟩, h.1 ⟨true, false, false, 10⟩ rfl⟩

/-- The resolved `head`, `startAtOffset` and `numLines` do not depend
on the follow flag. -/
theorem resolveFlags_core_indep (hf f f' : Bool) (n : String) :
    (resolveFlags hf f n).map (fun fl => (fl.head, fl.startAtOffset, fl.numLines))
      = (resolveFlags hf f' n).map
          (fun fl => (fl.head, fl.startAtOffset, fl.numLines)) := by
  unfold resolveFlags
  by_cases hjd : justDigits (if n = "" then "10" else n) = true
  · simp only [hjd, if_true]
    cases goAtoi (if n = "" then "10" else n) <;> rfl
  · simp only [hjd, Bool.false_eq_true, if_false]
    by_cases hsw : hasPlusSign (if n = "" then "10" else n) = true
    · simp only [hsw, if_true]
      cases goAtoiChars (if n = "" then "10" else n).data.tail <;> rfl
    · simp only [hsw, Bool.false_eq_true, if_false]

/-- C10: when stdin is non-interactive, `main` scans stdin, writes the
single window and exits 0: the outcome is determined by the stdin
lines and the resolved count alone — file arguments, glob patterns,
the rescan list and the follow flag are never consulted — and
`GetLines` ignores its path argument (the open outcome) in that
case. -/
theorem stdin_takes_precedence {α : Type} [DecidableEq α]
    (env env' : MainEnv α) (hf ff ff' : Bool) (n : String) (fl : ResolvedFlags)
    (hfl : resolveFlags hf ff n = some fl)
    (hs : env.stdinPiped = true) (hs' : env'.stdinPiped = true)
    (hlines : env'.stdinLines = env.stdinLines) :
    mainModel env hf ff n
      = MainOutcome.stdinRun
          (getLines true env.stdinLines (Except.error "no path")
            fl.head fl.startAtOffset fl.numLines)
    ∧ mainModel env' hf ff' n = mainModel env hf ff n
    ∧ (∀ (o₁ o₂ : Except String (List String)) (sl : List String)
        (h s : Bool) (k : Int),
        getLines true sl o₁ h s k = getLines true sl o₂ h s k) := by
  have hmain : mainModel env hf ff n
      = MainOutcome.stdinRun
          (getLines true env.stdinLines (Except.error "no path")
            fl.head fl.startAtOffset fl.numLines) := by
    unfold mainModel
    rw [hfl]
    simp [hs]
  have hcore := resolveFlags_core_indep hf ff ff' n
  rw [hfl] at hcore
  cases hres' : resolveFlags hf ff' n with
  | none =>
    rw [hres'] at hcore
    simp at hcore
  | some fl' =>
    rw [hres'] at hcore
    simp only [Option.map_some'] at hcore
    rw [Option.some.injEq] at hcore
    have hh : fl.head = fl'.head := congrArg Prod.fst hcore
    have hsoff : fl.startAtOffset = fl'.startAtOffset :=
      congrArg (fun x => x.2.1) hcore
    have hnum : fl.numLines = fl'.numLines := congrArg (fun x => x.2.2) hcore
    have hmain' : mainModel env' hf ff' n
        = MainOutcome.stdinRun
            (getLines true env'.stdinLines (Except.error "no path")
              fl'.head fl'.startAtOffset fl'.numLines) := by
      unfold mainModel
      rw [hres']
      simp [hs']
    refine ⟨hmain, ?_, fun o₁ o₂ sl h s k => rfl⟩
    rw [hmain, hmain', hlines, hh, hsoff, hnum]

/-- Witness for C10: a piped run with different file lists, globs and
follow flags produces the same stdin outcome. -/
theorem stdin_takes_precedence_witness :
    mainModel (⟨true, ["l1", "l2"], niceEnv, [0], false, []⟩ : MainEnv Nat)
      false false "1"
      = MainOutcome.stdinRun
          (getLines true ["l1", "l2"] (Except.error "no path") false false 1)
    ∧ mainModel (⟨true, ["l1", "l2"], niceEnv, [1, 2, 3], true, [[7]]⟩ : MainEnv Nat)
        false true "1"
      = mainModel (⟨true, ["l1", "l2"], niceEnv, [0], false, []⟩ : MainEnv Nat)
          false false "1" := by
  have h := stdin_takes_precedence
    (⟨true, ["l1", "l2"], niceEnv, [0], false, []⟩ : MainEnv Nat)
    (⟨true, ["l1", "l2"], niceEnv, [1, 2, 3], true, [[7]]⟩ : MainEnv Nat)
    false false true "1" ⟨false, false, false, 1⟩ rfl rfl rfl rfl
  exact ⟨h.1, h.2.1⟩


/-- Invariant of pass traces: a released follower has its unlock event
in the trace and the coordinator past all writes; coordinator progress
is reflected in the trace; every emit is preceded by the emitter's
unlock and by every write. -/
theorem passTrace_inv (nP nF : Nat) (tr : List PassEv) (c : PassCfg)
    (htr : PassTrace nP nF tr c) :
    (∀ i, c.running i = true → PassEv.unlock i ∈ tr ∧ nP ≤ c.pc)
    ∧ (∀ j, j < nP → j < c.pc → PassEv.write j ∈ tr)
    ∧ (∀ q i, tr.get? q = some (PassEv.emit i) →
        (∃ p, p < q ∧ tr.get? p = some (PassEv.unlock i))
        ∧ (∀ j, j < nP → ∃ p, p < q ∧ tr.get? p = some (PassEv.write j))) := by
  induction htr with
  | nil =>
    refine ⟨?_, ?_, ?_⟩
    · intro i hi
      simp [initCfg] at hi
    · intro j _ hj
      simp [initCfg] at hj
    · intro q i hq
      simp at hq
  | snoc tr c e c' htr' hstep ih =>
    obtain ⟨ih1, ih2, ih3⟩ := ih
    have hlift : ∀ (p : Nat) (x : PassEv),
        tr.get? p = some x → (tr ++ [e]).get? p = some x := by
      intro p x hx
      have hp : p < tr.length := (List.get?_eq_some.mp hx).1
      rw [List.get?_append hp]
      exact hx
    have hmem_pos : ∀ x : PassEv, x ∈ tr →
        ∃ p, p < tr.length ∧ tr.get? p = some x := by
      intro x hx
      obtain ⟨p, hp⟩ := List.mem_iff_get?.mp hx
      exact ⟨p, (List.get?_eq_some.mp hp).1, hp⟩
    have hnone : ∀ q, tr.length < q → (tr ++ [e]).get? q = none := by
      intro q hgt
      rw [List.get?_eq_none]
      simp only [List.length_append, List.length_singleton]
      omega
    have hold : ∀ q i, q < tr.length → (tr ++ [e]).get? q = some (PassEv.emit i) →
        (∃ p, p < q ∧ (tr ++ [e]).get? p = some (PassEv.unlock i))
        ∧ (∀ j, j < nP → ∃ p, p < q ∧ (tr ++ [e]).get? p = some (PassEv.write j)) := by
      intro q i hlt hq
      rw [List.get?_append hlt] at hq
      obtain ⟨⟨p, hp1, hp2⟩, hw⟩ := ih3 q i hq
      refine ⟨⟨p, hp1, hlift p _ hp2⟩, ?_⟩
      intro j hj
      obtain ⟨p', hp1', hp2'⟩ := hw j hj
      exact ⟨p', hp1', hlift p' _ hp2'⟩
    cases hstep with
    | write h =>
      refine ⟨?_, ?_, ?_⟩
      · intro i hi
        obtain ⟨hu, hpc⟩ := ih1 i hi
        exact ⟨List.mem_append_left _ hu, by omega⟩
      · intro j hj hj2
        by_cases hjc : j < c.pc
        · exact List.mem_append_left _ (ih2 j hj hjc)
        · have hjeq : j = c.pc := by
            simp only [] at hj2
            omega
          subst hjeq
          exact List.mem_append_right _ (List.mem_singleton.mpr rfl)
      · intro q i hq
        rcases lt_trichotomy q tr.length with hlt | heq | hgt
        · exact hold q i hlt hq
        · subst heq
          rw [List.get?_concat_length] at hq
          cases hq
        · rw [hnone q hgt] at hq
          cases hq
    | release h1 h2 =>
      refine ⟨?_, ?_, ?_⟩
      · intro i hi
        simp only [] at hi
        by_cases hieq : i = c.pc - nP
        · refine ⟨List.mem_append_right _ ?_, by simp only []; omega⟩
          rw [hieq]
          exact List.mem_singleton.mpr rfl
        · rw [if_neg hieq] at hi
          obtain ⟨hu, hpc⟩ := ih1 i hi
          exact ⟨List.mem_append_left _ hu, by simp only []; omega⟩
      · intro j hj hj2
        have hjc : j < c.pc := by omega
        exact List.mem_append_left _ (ih2 j hj hjc)
      · intro q i hq
        rcases lt_trichotomy q tr.length with hlt | heq | hgt
        · exact hold q i hlt hq
        · subst heq
          rw [List.get?_concat_length] at hq
          cases hq
        · rw [hnone q hgt] at hq
          cases hq
    | emit i0 h =>
      refine ⟨?_, ?_, ?_⟩
      · intro i hi
        obtain ⟨hu, hpc⟩ := ih1 i hi
        exact ⟨List.mem_append_left _ hu, hpc⟩
      · intro j hj hj2
        exact List.mem_append_left _ (ih2 j hj hj2)
      · intro q i hq
        rcases lt_trichotomy q tr.length with hlt | heq | hgt
        · exact hold q i hlt hq
        · subst heq
          rw [List.get?_concat_length, Option.some.injEq, PassEv.emit.injEq] at hq
          subst hq
          obtain ⟨hu, hpc⟩ := ih1 i0 h
          refine ⟨?_, ?_⟩
          · obtain ⟨p, hplen, hpget⟩ := hmem_pos _ hu
            exact ⟨p, hplen, hlift p _ hpget⟩
          · intro j hj
            have hjc : j < c.pc := by omega
            obtain ⟨p, hplen, hpget⟩ := hmem_pos _ (ih2 j hj hjc)
            exact ⟨p, hplen, hlift p _ hpget⟩
        · rw [hnone q hgt] at hq
          cases hq


/-- C3: in every interleaving trace of one pass, a follower emit occurs
only after that follower's release gate event, and after all `nP`
initial window writes of the pass: follow-mode output never precedes
or interleaves the initial-window output of any path in the same
pass. -/
theorem release_gate_order (nP nF : Nat) (tr : List PassEv) (c : PassCfg)
    (htr : PassTrace nP nF tr c) (q i : Nat)
    (hemit : tr.get? q = some (PassEv.emit i)) :
    (∃ p, p < q ∧ tr.get? p = some (PassEv.unlock i))
    ∧ (∀ j, j < nP → ∃ p, p < q ∧ tr.get? p = some (PassEv.write j)) :=
  (passTrace_inv nP nF tr c htr).2.2 q i hemit

/-- Witness for C3 on the three-event trace write, unlock, emit of a
one-file pass. -/
theorem release_gate_order_witness :
    (∃ p, p < 2 ∧ [PassEv.write 0, PassEv.unlock 0, PassEv.emit 0].get? p
        = some (PassEv.unlock 0))
    ∧ (∃ p, p < 2 ∧ [PassEv.write 0, PassEv.unlock 0, PassEv.emit 0].get? p
        = some (PassEv.write 0)) := by
  have t1 : PassTrace 1 1 ([] ++ [PassEv.write 0]) ⟨0 + 1, initCfg.running⟩ :=
    PassTrace.snoc [] initCfg (PassEv.write 0) ⟨0 + 1, initCfg.running⟩
      PassTrace.nil (PassStep.write initCfg (by decide))
  have t2 : PassTrace 1 1 (([] ++ [PassEv.write 0]) ++ [PassEv.unlock 0])
      ⟨1 + 1, fun j => if j = 1 - 1 then true else initCfg.running j⟩ :=
    PassTrace.snoc _ _ (PassEv.unlock 0) _ t1
      (PassStep.release ⟨0 + 1, initCfg.running⟩ (by decide) (by decide))
  have t3 : PassTrace 1 1
      ((([] ++ [PassEv.write 0]) ++ [PassEv.unlock 0]) ++ [PassEv.emit 0])
      ⟨1 + 1, fun j => if j = 1 - 1 then true else initCfg.running j⟩ :=
    PassTrace.snoc _ _ (PassEv.emit 0) _ t2
      (PassStep.emit _ 0 rfl)
  have h := release_gate_order 1 1
    [PassEv.write 0, PassEv.unlock 0, PassEv.emit 0]
    ⟨1 + 1, fun j => if j = 1 - 1 then true else initCfg.running j⟩ t3 2 0 rfl
  exact ⟨h.1, h.2 0 (by decide)⟩

end GoTail
